import Mathlib

/-!
Verification of the extraction-validator pipeline of the aurelo backend
(src/backend/app.py): the holding validator embedded in
parse_portfolio_image (lines 317-388) and the trade validator embedded in
parse_trade_image_with_gemini (lines 1044-1086).  Python dictionaries
decoded from JSON are modelled as ordered association lists, Python floats
as rationals, and each per-record loop body as a function from a candidate
record to an optional normalized record (or, for trades, to a three-way
outcome that also covers the uncaught AttributeError raised by calling
.upper() on a non-string ticker).
-/

namespace Aurelo

mutual
/-- JSON-like values as produced by json.loads in src/backend/app.py, in
the simple model: Python dicts preserve insertion order and are modelled
as ordered lists of key/value pairs; numbers (Python int and float) are
conflated and carried as rationals, so the NaN and Infinity constants
json.loads also accepts, and the int-float distinction, are out of this
type's range -- they live in the extended model (PyValue) further below. -/
inductive JValue : Type where
  | null : JValue
  | bool (b : Bool) : JValue
  | num (q : ℚ) : JValue
  | str (s : String) : JValue
  | arr (elems : JArr) : JValue
  | obj (fields : JObj) : JValue
/-- A decoded JSON array: a list of JSON values. -/
inductive JArr : Type where
  | nil : JArr
  | cons (v : JValue) (rest : JArr) : JArr
/-- A decoded JSON object: ordered key/value pairs. -/
inductive JObj : Type where
  | nil : JObj
  | cons (k : String) (v : JValue) (rest : JObj) : JObj
end

deriving instance DecidableEq for JValue, JArr, JObj
deriving instance Repr for JValue, JArr, JObj

/-- A decoded Python dictionary, flattened to an ordered list of pairs. -/
abbrev Dict := List (String × JValue)

/-- Flatten a decoded JSON array to a Lean list. -/
def JArr.toList : JArr → List JValue
  | .nil => []
  | .cons v rest => v :: rest.toList

/-- Flatten a decoded JSON object to an ordered list of key/value pairs. -/
def JObj.toList : JObj → Dict
  | .nil => []
  | .cons k v rest => (k, v) :: rest.toList

/-- Rebuild a JSON object from an ordered list of key/value pairs. -/
def JObj.ofList : Dict → JObj
  | [] => .nil
  | (k, v) :: rest => .cons k v (JObj.ofList rest)

/-- Membership test for a key, as the Python `k in d` operator. -/
def hasKey (d : Dict) (k : String) : Bool :=
  d.any (fun p => p.1 == k)

/-- Lookup with default, as Python `d.get(k, dflt)`: the value at the first
occurrence of the key, or the default when the key is absent. -/
def dget (d : Dict) (k : String) (dflt : JValue) : JValue :=
  match d.find? (fun p => p.1 == k) with
  | some p => p.2
  | none => dflt

/-- Update, as Python `d[k] = v`: replace the value at the first occurrence
of the key in place (keeping its position), or append the pair when the key
is absent. -/
def dset (d : Dict) (k : String) (v : JValue) : Dict :=
  match d with
  | [] => [(k, v)]
  | (k', v') :: rest => if k' = k then (k, v) :: rest else (k', v') :: dset rest k v

/-- Python truthiness of a decoded JSON value, as used by
`if asset.get('isStock'):` in app.py line 339 -- None, False, 0, the empty
string, the empty list and the empty dict are falsy, all else truthy. -/
def truthy : JValue → Bool
  | .null => false
  | .bool b => b
  | .num q => q != 0
  | .str s => s != ""
  | .arr .nil => false
  | .arr (.cons _ _) => true
  | .obj .nil => false
  | .obj (.cons _ _ _) => true

/-- Numeric value of a list of decimal digit characters, most significant
first. -/
def digitsVal (cs : List Char) : ℕ :=
  cs.foldl (fun a c => a * 10 + (c.toNat - 48)) 0

/-- Parse an optional exponent tail ('e' or 'E', optional sign, at least
one digit); an empty tail yields exponent 0, a malformed one fails. -/
def parseExpTail (cs : List Char) : Option ℤ :=
  match cs with
  | [] => some 0
  | e :: rest =>
    if e = 'e' ∨ e = 'E' then
      let (neg, ds) : Bool × List Char :=
        match rest with
        | '+' :: rest2 => (false, rest2)
        | '-' :: rest2 => (true, rest2)
        | _ => (false, rest)
      if ds ≠ [] ∧ ds.all Char.isDigit then
        some (if neg then -(digitsVal ds : ℤ) else (digitsVal ds : ℤ))
      else none
    else none

/-- The rational m / 10 ^ L, scaled by 10 ^ e, built from integer
arithmetic only (so that it evaluates inside the kernel). -/
def scaledDecimal (m L : ℕ) (e : ℤ) : ℚ :=
  if 0 ≤ e then Rat.divInt (Int.ofNat (m * Nat.pow 10 e.toNat)) (Int.ofNat (Nat.pow 10 L))
  else Rat.divInt (Int.ofNat m) (Int.ofNat (Nat.pow 10 L * Nat.pow 10 (-e).toNat))

/-- Parse an unsigned decimal literal (digits, optional fractional part,
optional exponent), as accepted by the Python builtin float(): the value
of digits I, fraction F of length L and exponent e is
(I * 10 ^ L + F) / 10 ^ L * 10 ^ e. -/
def parseUnsignedFloat (cs : List Char) : Option ℚ :=
  let intPart := cs.takeWhile Char.isDigit
  let rest := cs.dropWhile Char.isDigit
  match rest with
  | '.' :: rest2 =>
    let fracPart := rest2.takeWhile Char.isDigit
    let rest3 := rest2.dropWhile Char.isDigit
    if intPart = [] ∧ fracPart = [] then none
    else
      match parseExpTail rest3 with
      | some e =>
        some (scaledDecimal (digitsVal intPart * 10 ^ fracPart.length + digitsVal fracPart) fracPart.length e)
      | none => none
  | _ =>
    if intPart = [] then none
    else
      match parseExpTail rest with
      | some e => some (scaledDecimal (digitsVal intPart) 0 e)
      | none => none

/-- The Python builtin float() applied to a string, in the simple model:
strip surrounding whitespace, then an optional sign followed by a decimal
literal.  The special forms nan, inf and infinity and PEP-515 underscores
-- which Python accepts -- are outside this model's value range and are
handled by parsePyFloatString in the extended model further below; every
string the claims proved against the simple model exercise is a plain
decimal literal or a non-numeric word. -/
def pyFloatOfString (s : String) : Option ℚ :=
  let cs := s.data.dropWhile Char.isWhitespace
  let cs := (cs.reverse.dropWhile Char.isWhitespace).reverse
  match cs with
  | '+' :: rest => parseUnsignedFloat rest
  | '-' :: rest => (parseUnsignedFloat rest).map (fun q => -q)
  | _ => parseUnsignedFloat cs

/-- The Python builtin float() applied to a decoded JSON value, in the
simple model: numbers pass through, booleans become 0 or 1, strings are
parsed as decimal literals; None, lists and dicts raise TypeError,
modelled as none (the validators catch exactly ValueError and TypeError
around these calls).  This model treats float() as total on numbers; the
OverflowError that float() raises on an integer beyond the double range
-- which no inner handler catches -- is modelled by pyFloatX in the
extended model further below. -/
def pyFloat : JValue → Option ℚ
  | .num q => some q
  | .bool b => some (if b then 1 else 0)
  | .str s => pyFloatOfString s
  | .null => none
  | .arr _ => none
  | .obj _ => none

/-- The Python str.upper() method, as a character-by-character map (exact
for the ASCII tickers the code handles). -/
def pyUpper (s : String) : String := String.mk (s.data.map Char.toUpper)

/-- The stock branch of the holding validator, app.py lines 339-356: fill
ticker (default empty string), shares (default 0), purchasePrice
(default 0); force balance and apy to 0; coerce shares and purchasePrice
with float(), dropping the record when coercion raises or either coerced
value is not positive, otherwise store the coerced numbers back. -/
def stock_branch (d : Dict) : Option Dict :=
  let a1 := dset d "ticker" (dget d "ticker" (.str ""))
  let a2 := dset a1 "shares" (dget a1 "shares" (.num 0))
  let a3 := dset a2 "purchasePrice" (dget a2 "purchasePrice" (.num 0))
  let a4 := dset a3 "balance" (.num 0)
  let a5 := dset a4 "apy" (.num 0)
  match pyFloat (dget a5 "shares" .null), pyFloat (dget a5 "purchasePrice" .null) with
  | some shares, some price =>
    if shares ≤ 0 ∨ price ≤ 0 then none
    else some (dset (dset a5 "shares" (.num shares)) "purchasePrice" (.num price))
  | _, _ => none

/-- The cash branch of the holding validator, app.py lines 358-378: force
ticker, shares, purchasePrice to empty and 0; fill balance and apy
(default 0); coerce balance with float(), dropping the record when
coercion raises or the result is not positive; then coerce apy, dropping
the record when coercion raises, and reset apy to 0 when the coerced
value falls outside the interval from 0 to 1. -/
def cash_branch (d : Dict) : Option Dict :=
  let c1 := dset d "ticker" (.str "")
  let c2 := dset c1 "shares" (.num 0)
  let c3 := dset c2 "purchasePrice" (.num 0)
  let c4 := dset c3 "balance" (dget c3 "balance" (.num 0))
  let c5 := dset c4 "apy" (dget c4 "apy" (.num 0))
  match pyFloat (dget c5 "balance" .null) with
  | none => none
  | some balance =>
    if balance ≤ 0 then none
    else
      let c6 := dset c5 "balance" (.num balance)
      match pyFloat (dget c6 "apy" .null) with
      | none => none
      | some apy =>
        if apy < 0 ∨ apy > 1 then some (dset c6 "apy" (.num 0))
        else some (dset c6 "apy" (.num apy))

/-- The per-record body of the holding validator loop, app.py lines
330-380: skip non-dict entries, require the keys name and isStock, then
branch on the truthiness of the isStock value. -/
def validateAsset (v : JValue) : Option Dict :=
  match v with
  | .obj fields =>
    let d := fields.toList
    if hasKey d "name" && hasKey d "isStock" then
      if truthy (dget d "isStock" .null) then stock_branch d else cash_branch d
    else none
  | _ => none

/-- The holding validator loop, app.py lines 329-380, with its accumulator
validated_assets made explicit. -/
def validateAssetsFrom : List JValue → List Dict → List Dict
  | [], acc => acc
  | a :: rest, acc =>
    match validateAsset a with
    | none => validateAssetsFrom rest acc
    | some r => validateAssetsFrom rest (acc ++ [r])

/-- The holding validator, app.py lines 329-382: run the per-record loop
starting from an empty accumulator. -/
def validated_assets (assets : List JValue) : List Dict :=
  validateAssetsFrom assets []

/-- The parse stage of parse_portfolio_image, app.py lines 317-388, from
the outcome of json.loads on the fence-stripped model response (none when
decoding raised).  A decoded non-array yields the empty list exactly as
the source does: iterating a dict or string yields non-dict items that are
all skipped, and iterating any other value raises TypeError, which the
outer exception handler turns into an empty result. -/
def parse_portfolio_image (decoded : Option JValue) : List Dict :=
  match decoded with
  | some (.arr assets) => validated_assets assets.toList
  | _ => []

/-- Outcome of the per-record body of the trade validator loop: the record
is dropped, kept (normalized), or raises an exception that only the
handler outside the loop catches. -/
inductive TradeOutcome : Type where
  | drop : TradeOutcome
  | keep (d : Dict) : TradeOutcome
  | raised : TradeOutcome
deriving Repr, DecidableEq

/-- The per-record body of the trade validator loop, app.py lines
1057-1078: skip non-dict entries, require date, ticker, realized_pnl and
percent_diff, coerce the two numeric fields with float() (dropping the
record when coercion raises ValueError or TypeError), then call
trade['ticker'].upper() -- which raises an uncaught AttributeError when
the ticker value is not a string, aborting the whole loop. -/
def validateTrade (v : JValue) : TradeOutcome :=
  match v with
  | .obj fields =>
    let d := fields.toList
    if hasKey d "date" && hasKey d "ticker" && hasKey d "realized_pnl" && hasKey d "percent_diff" then
      match pyFloat (dget d "realized_pnl" .null), pyFloat (dget d "percent_diff" .null) with
      | some pnl, some pd =>
        let d2 := dset (dset d "realized_pnl" (.num pnl)) "percent_diff" (.num pd)
        match dget d2 "ticker" .null with
        | .str s => .keep (dset d2 "ticker" (.str (pyUpper s)))
        | _ => .raised
      | _, _ => .drop
    else .drop
  | _ => .drop

/-- The trade validator loop, app.py lines 1056-1078, with its accumulator
validated_trades made explicit; an uncaught exception from a record
abandons the accumulator and the function returns the empty list (outer
handler, app.py lines 1085-1086). -/
def validateTradesFrom : List JValue → List Dict → List Dict
  | [], acc => acc
  | t :: rest, acc =>
    match validateTrade t with
    | .drop => validateTradesFrom rest acc
    | .keep d => validateTradesFrom rest (acc ++ [d])
    | .raised => []

/-- The trade validator, app.py lines 1056-1080: run the per-record loop
starting from an empty accumulator. -/
def validated_trades (trades : List JValue) : List Dict :=
  validateTradesFrom trades []

/-- The parse stage of parse_trade_image_with_gemini, app.py lines
1044-1086, from the outcome of json.loads on the fence-stripped model
response (none when decoding raised); a decoded non-array yields the empty
list for the same reasons as in parse_portfolio_image. -/
def parse_trade_image_with_gemini (decoded : Option JValue) : List Dict :=
  match decoded with
  | some (.arr trades) => validated_trades trades.toList
  | _ => []

/-- Keep-projection of the per-trade outcome, used to describe the output
order of the trade validator. -/
def tradeKeep (v : JValue) : Option Dict :=
  match validateTrade v with
  | .keep d => some d
  | _ => none

/-- Build a decoded JSON object value from an ordered list of pairs. -/
def mkObj (d : Dict) : JValue := .obj (JObj.ofList d)

/-! Concrete records used by counterexamples and witnesses. -/

/-- The cash record of the spec's worked example, section 8. -/
def specCashD : Dict :=
  [("name", .str "Cash"), ("isStock", .bool false), ("balance", .str "5000.00"), ("apy", .str "0.045")]

/-- The cash record of the spec's worked example, as a decoded value. -/
def specCashIn : JValue := mkObj specCashD

/-- The negative-share stock record of the spec's worked example, with the
price under the key currentPrice exactly as the example writes it. -/
def specBadCoIn : JValue :=
  mkObj [("name", .str "BadCo"), ("isStock", .bool true), ("ticker", .str "X"), ("shares", .num (-1)), ("currentPrice", .num 10)]

/-- The Apple stock record of the spec's worked example, with the price
under the key currentPrice exactly as the example writes it. -/
def specAppleIn : JValue :=
  mkObj [("name", .str "Apple"), ("isStock", .bool true), ("ticker", .str "AAPL"), ("shares", .str "10.5"), ("currentPrice", .str "150.25")]

/-- The first output record the spec's worked example claims. -/
def specCashOutClaim : Dict :=
  [("name", .str "Cash"), ("isStock", .bool false), ("ticker", .str ""), ("shares", .num 0), ("currentPrice", .num 0), ("balance", .num 5000), ("apy", .num (Rat.divInt 45 1000))]

/-- The second output record the spec's worked example claims. -/
def specAppleOutClaim : Dict :=
  [("name", .str "Apple"), ("isStock", .bool true), ("ticker", .str "AAPL"), ("shares", .num (Rat.divInt 21 2)), ("currentPrice", .num (Rat.divInt 601 4)), ("balance", .num 0), ("apy", .num 0)]

/-- The BadCo record with its price under the key purchasePrice, the field
name the code actually reads. -/
def amendBadCoIn : JValue :=
  mkObj [("name", .str "BadCo"), ("isStock", .bool true), ("ticker", .str "X"), ("shares", .num (-1)), ("purchasePrice", .num 10)]

/-- The Apple record with its price under the key purchasePrice, the field
name the code actually reads. -/
def amendAppleIn : JValue :=
  mkObj [("name", .str "Apple"), ("isStock", .bool true), ("ticker", .str "AAPL"), ("shares", .str "10.5"), ("purchasePrice", .str "150.25")]

/-- The normalized Cash record the code actually produces (key order: the
original keys first, then the appended defaults). -/
def amendCashOut : Dict :=
  [("name", .str "Cash"), ("isStock", .bool false), ("balance", .num 5000), ("apy", .num (Rat.divInt 45 1000)), ("ticker", .str ""), ("shares", .num 0), ("purchasePrice", .num 0)]

/-- The normalized Apple record the code actually produces. -/
def amendAppleOut : Dict :=
  [("name", .str "Apple"), ("isStock", .bool true), ("ticker", .str "AAPL"), ("shares", .num (Rat.divInt 21 2)), ("purchasePrice", .num (Rat.divInt 601 4)), ("balance", .num 0), ("apy", .num 0)]

/-- A fully valid trade record, with realized_pnl as the string form the
spec's trade example uses. -/
def goodTradeIn : JValue :=
  mkObj [("date", .str "2025-08-25"), ("ticker", .str "open"), ("realized_pnl", .str "5.13"), ("percent_diff", .num 2)]

/-- The normalized form of goodTradeIn. -/
def goodTradeOut : Dict :=
  [("date", .str "2025-08-25"), ("ticker", .str "OPEN"), ("realized_pnl", .num (Rat.divInt 513 100)), ("percent_diff", .num 2)]

/-- A trade record with all four fields present and coercible numeric
fields, but a numeric (non-string) ticker. -/
def numTickerTradeD : Dict :=
  [("date", .str "2025-08-25"), ("ticker", .num 5), ("realized_pnl", .num 1), ("percent_diff", .num 1)]

/-- The non-string-ticker trade record as a decoded value. -/
def numTickerTradeIn : JValue := mkObj numTickerTradeD

/-- A cash holding with a positive balance whose apy is a non-numeric
string. -/
def savingsOopsD : Dict :=
  [("name", .str "Savings"), ("isStock", .bool false), ("balance", .num 100), ("apy", .str "oops")]

/-- The oops-apy cash holding as a decoded value. -/
def savingsOopsIn : JValue := mkObj savingsOopsD

/-- A cash holding with a positive balance and an apy of 5, outside the
unit interval. -/
def hyCashD : Dict :=
  [("name", .str "HY"), ("isStock", .bool false), ("balance", .num 100), ("apy", .num 5)]

/-- The out-of-range-apy cash holding as a decoded value. -/
def hyCashIn : JValue := mkObj hyCashD

/-- A stock holding whose isStock is the truthy non-empty string "false". -/
def strFalseStockD : Dict :=
  [("name", .str "N"), ("isStock", .str "false"), ("shares", .num 1), ("purchasePrice", .num 1)]

/-- The string-false stock holding as a decoded value. -/
def strFalseStockIn : JValue := mkObj strFalseStockD

/-- A stock holding with no ticker key at all. -/
def noTickerStockD : Dict :=
  [("name", .str "NT"), ("isStock", .bool true), ("shares", .num 2), ("purchasePrice", .num 3)]

/-- The ticker-less stock holding as a decoded value. -/
def noTickerStockIn : JValue := mkObj noTickerStockD

/-!
Extended model.  The simple model above carries every Python number as a
single rational, which is enough for claims whose hypotheses keep the
numbers ordinary, but it cannot express three behaviors of the source:
json.loads and float() accept NaN and the infinities (and the code then
retains them, since every comparison against NaN is False), float() on an
integer too large for a double raises OverflowError -- which the inner
except (ValueError, TypeError) does not catch, so it empties the whole
batch in either validator -- and float() on strings accepts underscores
between digits.  The definitions below extend the model with exactly
these behaviors: Python floats become a finite rational, an infinity or
NaN; decoded integers are kept distinct from floats (only the int-to-
float conversion can overflow); and the validators' per-record bodies
gain the uncaught-exception outcome.
-/

/-- Value of a Python float: a finite value (carried exactly as a
rational; rounding of finite values is not modelled), an infinity, or
NaN. -/
inductive PyNum : Type where
  | fin (q : ℚ) : PyNum
  | inf : PyNum
  | negInf : PyNum
  | nan : PyNum
deriving Repr, DecidableEq

mutual
/-- JSON-like values as json.loads actually produces them: integers are
arbitrary-precision Python ints, reals and the NaN/Infinity constants are
Python floats. -/
inductive PyValue : Type where
  | null : PyValue
  | bool (b : Bool) : PyValue
  | int (n : ℤ) : PyValue
  | float (x : PyNum) : PyValue
  | str (s : String) : PyValue
  | arr (elems : PyArr) : PyValue
  | obj (fields : PyObj) : PyValue
/-- A decoded JSON array in the extended model. -/
inductive PyArr : Type where
  | nil : PyArr
  | cons (v : PyValue) (rest : PyArr) : PyArr
/-- A decoded JSON object in the extended model. -/
inductive PyObj : Type where
  | nil : PyObj
  | cons (k : String) (v : PyValue) (rest : PyObj) : PyObj
end

deriving instance DecidableEq for PyValue, PyArr, PyObj
deriving instance Repr for PyValue, PyArr, PyObj

/-- A decoded Python dictionary in the extended model. -/
abbrev PyDict := List (String × PyValue)

/-- Flatten a decoded JSON array to a Lean list. -/
def PyArr.toList : PyArr → List PyValue
  | .nil => []
  | .cons v rest => v :: rest.toList

/-- Flatten a decoded JSON object to an ordered list of key/value pairs. -/
def PyObj.toList : PyObj → PyDict
  | .nil => []
  | .cons k v rest => (k, v) :: rest.toList

/-- Rebuild a JSON object from an ordered list of key/value pairs. -/
def PyObj.ofList : PyDict → PyObj
  | [] => .nil
  | (k, v) :: rest => .cons k v (PyObj.ofList rest)

/-- Build a decoded JSON object value from an ordered list of pairs. -/
def mkObjX (d : PyDict) : PyValue := .obj (PyObj.ofList d)

/-- Membership test for a key, as the Python `k in d` operator. -/
def pHasKey (d : PyDict) (k : String) : Bool :=
  d.any (fun p => p.1 == k)

/-- Lookup with default, as Python `d.get(k, dflt)`. -/
def pget (d : PyDict) (k : String) (dflt : PyValue) : PyValue :=
  match d.find? (fun p => p.1 == k) with
  | some p => p.2
  | none => dflt

/-- Update, as Python `d[k] = v`. -/
def pset (d : PyDict) (k : String) (v : PyValue) : PyDict :=
  match d with
  | [] => [(k, v)]
  | (k', v') :: rest => if k' = k then (k, v) :: rest else (k', v') :: pset rest k v

/-- Python truthiness in the extended model: NaN and the infinities are
truthy, 0 and 0.0 are falsy. -/
def truthyX : PyValue → Bool
  | .null => false
  | .bool b => b
  | .int n => n != 0
  | .float (.fin q) => q != 0
  | .float .inf => true
  | .float .negInf => true
  | .float .nan => true
  | .str s => s != ""
  | .arr .nil => false
  | .arr (.cons _ _) => true
  | .obj .nil => false
  | .obj (.cons _ _ _) => true

/-- The Python comparison x <= 0: False for NaN and +inf, True for
-inf. -/
def PyNum.leZero : PyNum → Bool
  | .fin q => decide (q ≤ 0)
  | .inf => false
  | .negInf => true
  | .nan => false

/-- The Python comparison x < 0: False for NaN and +inf, True for
-inf. -/
def PyNum.ltZero : PyNum → Bool
  | .fin q => decide (q < 0)
  | .inf => false
  | .negInf => true
  | .nan => false

/-- The Python comparison x > 1: True for +inf, False for NaN and
-inf. -/
def PyNum.gtOne : PyNum → Bool
  | .fin q => decide (q > 1)
  | .inf => true
  | .negInf => false
  | .nan => false

/-- The Python comparison x > 0: True for +inf, False for NaN and
-inf. -/
def PyNum.gtZero : PyNum → Bool
  | .fin q => decide (q > 0)
  | .inf => true
  | .negInf => false
  | .nan => false

/-- Smallest magnitude at which CPython's int-to-float conversion raises
OverflowError: integers of absolute value at least 2 ^ 1024 - 2 ^ 970
round (half-even) beyond the largest finite double. -/
def overflowBound : ℤ := Int.ofNat (Nat.pow 2 1024 - Nat.pow 2 970)

/-- The overflow bound as a rational (oversized decimal strings round to
an infinity instead of raising). -/
def overflowBoundQ : ℚ := Rat.divInt overflowBound 1

/-- Validity of PEP-515 underscores after the first character: every
underscore must sit directly between two digits. -/
def underscoresValidAux : Char → List Char → Bool
  | _, [] => true
  | _, ['_'] => false
  | prev, '_' :: c :: rest => prev.isDigit && c.isDigit && underscoresValidAux c rest
  | _, c :: rest => underscoresValidAux c rest

/-- Validity of PEP-515 underscores in a numeric literal: every
underscore must sit directly between two digits. -/
def underscoresValid : List Char → Bool
  | [] => true
  | '_' :: _ => false
  | c :: rest => underscoresValidAux c rest

/-- The Python builtin float() applied to a string, extended model:
surrounding whitespace stripped, an optional sign, then the
case-insensitive special forms nan, inf and infinity, or a decimal
literal with PEP-515 underscores; a decimal whose value reaches the
double range boundary rounds to an infinity (never an error). -/
def parsePyFloatString (s : String) : Option PyNum :=
  let cs := s.data.dropWhile Char.isWhitespace
  let cs := (cs.reverse.dropWhile Char.isWhitespace).reverse
  let signed : Bool × List Char :=
    match cs with
    | '+' :: rest => (false, rest)
    | '-' :: rest => (true, rest)
    | _ => (false, cs)
  let neg := signed.1
  let body := signed.2
  let lower := body.map Char.toLower
  if lower = ['n', 'a', 'n'] then some .nan
  else if lower = ['i', 'n', 'f'] ∨ lower = ['i', 'n', 'f', 'i', 'n', 'i', 't', 'y'] then
    some (if neg then .negInf else .inf)
  else if underscoresValid body then
    match parseUnsignedFloat (body.filter (fun c => c != '_')) with
    | some q =>
      let q2 := if neg then -q else q
      some (if overflowBoundQ ≤ q2 then .inf
        else if q2 ≤ -overflowBoundQ then .negInf
        else .fin q2)
    | none => none
  else none

/-- Outcome of a call to the Python builtin float(): a float value, a
ValueError or TypeError (caught by the validators' inner handlers), or an
OverflowError (caught by no inner handler). -/
inductive FloatResult : Type where
  | ok (x : PyNum) : FloatResult
  | invalid : FloatResult
  | overflow : FloatResult
deriving Repr, DecidableEq

/-- The Python builtin float() in the extended model: floats pass
through (NaN and infinities included), an integer beyond the double range
raises OverflowError, booleans become 0 or 1, strings are parsed
(ValueError on failure), and None, lists and dicts raise TypeError. -/
def pyFloatX : PyValue → FloatResult
  | .int n => if overflowBound ≤ n ∨ n ≤ -overflowBound then .overflow
    else .ok (.fin (Rat.divInt n 1))
  | .float x => .ok x
  | .bool b => .ok (.fin (if b then 1 else 0))
  | .str s =>
    match parsePyFloatString s with
    | some x => .ok x
    | none => .invalid
  | .null => .invalid
  | .arr _ => .invalid
  | .obj _ => .invalid

/-- Outcome of one iteration of a validator loop in the extended model:
the record is dropped, kept (normalized), or raises an exception that
only the handler outside the loop catches. -/
inductive RecordOutcome : Type where
  | drop : RecordOutcome
  | keep (d : PyDict) : RecordOutcome
  | raised : RecordOutcome
deriving Repr, DecidableEq

/-- The stock branch of the holding validator in the extended model
(app.py lines 339-356): as stock_branch, but float() evaluates
left-to-right and an OverflowError from either coercion escapes the
inner except (ValueError, TypeError). -/
def stock_branchX (d : PyDict) : RecordOutcome :=
  let a1 := pset d "ticker" (pget d "ticker" (.str ""))
  let a2 := pset a1 "shares" (pget a1 "shares" (.int 0))
  let a3 := pset a2 "purchasePrice" (pget a2 "purchasePrice" (.int 0))
  let a4 := pset a3 "balance" (.int 0)
  let a5 := pset a4 "apy" (.int 0)
  match pyFloatX (pget a5 "shares" .null) with
  | .overflow => .raised
  | .invalid => .drop
  | .ok shares =>
    match pyFloatX (pget a5 "purchasePrice" .null) with
    | .overflow => .raised
    | .invalid => .drop
    | .ok price =>
      if shares.leZero || price.leZero then .drop
      else .keep (pset (pset a5 "shares" (.float shares)) "purchasePrice" (.float price))

/-- The cash branch of the holding validator in the extended model
(app.py lines 358-378): as cash_branch, with the overflow outcome, and
the stored-back defaults kept as Python ints where the source writes the
int literal 0. -/
def cash_branchX (d : PyDict) : RecordOutcome :=
  let c1 := pset d "ticker" (.str "")
  let c2 := pset c1 "shares" (.int 0)
  let c3 := pset c2 "purchasePrice" (.int 0)
  let c4 := pset c3 "balance" (pget c3 "balance" (.int 0))
  let c5 := pset c4 "apy" (pget c4 "apy" (.int 0))
  match pyFloatX (pget c5 "balance" .null) with
  | .overflow => .raised
  | .invalid => .drop
  | .ok balance =>
    if balance.leZero then .drop
    else
      let c6 := pset c5 "balance" (.float balance)
      match pyFloatX (pget c6 "apy" .null) with
      | .overflow => .raised
      | .invalid => .drop
      | .ok apy =>
        if apy.ltZero || apy.gtOne then .keep (pset c6 "apy" (.int 0))
        else .keep (pset c6 "apy" (.float apy))

/-- The per-record body of the holding validator loop in the extended
model (app.py lines 330-380). -/
def validateAssetX (v : PyValue) : RecordOutcome :=
  match v with
  | .obj fields =>
    let d := fields.toList
    if pHasKey d "name" && pHasKey d "isStock" then
      if truthyX (pget d "isStock" .null) then stock_branchX d else cash_branchX d
    else .drop
  | _ => .drop

/-- The per-record body of the trade validator loop in the extended model
(app.py lines 1057-1078): OverflowError from either float() and
AttributeError from a non-string ticker both escape the loop. -/
def validateTradeX (v : PyValue) : RecordOutcome :=
  match v with
  | .obj fields =>
    let d := fields.toList
    if pHasKey d "date" && pHasKey d "ticker" && pHasKey d "realized_pnl" && pHasKey d "percent_diff" then
      match pyFloatX (pget d "realized_pnl" .null) with
      | .overflow => .raised
      | .invalid => .drop
      | .ok pnl =>
        match pyFloatX (pget d "percent_diff" .null) with
        | .overflow => .raised
        | .invalid => .drop
        | .ok pd =>
          let d2 := pset (pset d "realized_pnl" (.float pnl)) "percent_diff" (.float pd)
          match pget d2 "ticker" .null with
          | .str s => .keep (pset d2 "ticker" (.str (pyUpper s)))
          | _ => .raised
    else .drop
  | _ => .drop

/-- A validator loop in the extended model, shared by both validators
(app.py lines 329-380 and 1056-1078): dropped records are skipped, kept
records are appended to the accumulator, and an uncaught exception
abandons the accumulator -- the outer handler returns the empty list. -/
def runValidationLoop (f : PyValue → RecordOutcome) : List PyValue → List PyDict → List PyDict
  | [], acc => acc
  | v :: rest, acc =>
    match f v with
    | .drop => runValidationLoop f rest acc
    | .keep r => runValidationLoop f rest (acc ++ [r])
    | .raised => []

/-- The holding validator in the extended model. -/
def validated_assetsX (assets : List PyValue) : List PyDict :=
  runValidationLoop validateAssetX assets []

/-- The trade validator in the extended model. -/
def validated_tradesX (trades : List PyValue) : List PyDict :=
  runValidationLoop validateTradeX trades []

/-- The parse stage of parse_portfolio_image in the extended model. -/
def parse_portfolio_imageX (decoded : Option PyValue) : List PyDict :=
  match decoded with
  | some (.arr assets) => validated_assetsX assets.toList
  | _ => []

/-- The parse stage of parse_trade_image_with_gemini in the extended
model. -/
def parse_trade_image_with_geminiX (decoded : Option PyValue) : List PyDict :=
  match decoded with
  | some (.arr trades) => validated_tradesX trades.toList
  | _ => []

/-- Keep-projection of a per-record outcome. -/
def keepOf (o : RecordOutcome) : Option PyDict :=
  match o with
  | .keep d => some d
  | _ => none

/-- The invariant the holding validator's output records actually
satisfy, stated with Python comparison semantics: on the stock side the
coerced shares and purchasePrice are floats for which the test
value <= 0 is False (positive, +inf, or NaN -- NaN fails every
comparison); on the cash side the balance is such a float, and the apy
is the int 0 (the clamp) or a float for which value < 0 and value > 1
are both False (inside the unit interval, or NaN). -/
def holdingInvariantX (r : PyDict) : Prop :=
  pHasKey r "name" = true ∧ pHasKey r "isStock" = true ∧ pHasKey r "ticker" = true ∧
  pHasKey r "shares" = true ∧ pHasKey r "purchasePrice" = true ∧
  pHasKey r "balance" = true ∧ pHasKey r "apy" = true ∧
  (truthyX (pget r "isStock" .null) = true →
    (∃ s : PyNum, pget r "shares" .null = .float s ∧ s.leZero = false) ∧
    (∃ p : PyNum, pget r "purchasePrice" .null = .float p ∧ p.leZero = false) ∧
    pget r "balance" .null = .int 0 ∧ pget r "apy" .null = .int 0) ∧
  (truthyX (pget r "isStock" .null) = false →
    pget r "ticker" .null = .str "" ∧ pget r "shares" .null = .int 0 ∧
    pget r "purchasePrice" .null = .int 0 ∧
    (∃ b : PyNum, pget r "balance" .null = .float b ∧ b.leZero = false) ∧
    (pget r "apy" .null = .int 0 ∨
      ∃ a : PyNum, pget r "apy" .null = .float a ∧ a.ltZero = false ∧ a.gtOne = false))

/-- A stock record whose shares field is the NaN that json.loads
produces for the literal NaN. -/
def nanStockD : PyDict :=
  [("name", .str "X"), ("isStock", .bool true), ("shares", .float .nan), ("purchasePrice", .int 1)]

/-- The NaN-shares stock record as a decoded value. -/
def nanStockIn : PyValue := mkObjX nanStockD

/-- The record the holding validator emits for nanStockIn: retained,
with its shares stored back as NaN. -/
def nanStockOut : PyDict :=
  [("name", .str "X"), ("isStock", .bool true), ("shares", .float .nan), ("purchasePrice", .float (.fin 1)), ("ticker", .str ""), ("balance", .int 0), ("apy", .int 0)]

/-- A stock record whose shares value is an integer beyond the double
range, so float() raises OverflowError. -/
def hugeIntStockIn : PyValue :=
  mkObjX [("name", .str "Big"), ("isStock", .bool true), ("shares", .int (Int.ofNat (Nat.pow 2 1024))), ("purchasePrice", .int 1)]

/-- A trade record whose realized_pnl is an integer beyond the double
range. -/
def hugeIntTradeIn : PyValue :=
  mkObjX [("date", .str "2025-08-25"), ("ticker", .str "A"), ("realized_pnl", .int (Int.ofNat (Nat.pow 2 1024))), ("percent_diff", .int 1)]

/-- The non-string-ticker trade record in the extended model. -/
def numTickerTradeXIn : PyValue :=
  mkObjX [("date", .str "2025-08-25"), ("ticker", .int 5), ("realized_pnl", .int 1), ("percent_diff", .int 1)]

/-! Basic lemmas about the dictionary operations. -/

theorem dget_cons (k' : String) (v' : JValue) (rest : Dict) (k : String) (dflt : JValue) :
    dget ((k', v') :: rest) k dflt = if (k' == k) = true then v' else dget rest k dflt := by
  by_cases h : (k' == k) = true <;> simp [dget, List.find?, h]

theorem dset_cons (a : String) (b : JValue) (rest : Dict) (k : String) (v : JValue) :
    dset ((a, b) :: rest) k v = if a = k then (k, v) :: rest else (a, b) :: dset rest k v := rfl

@[simp]
theorem hasKey_cons (k' : String) (v' : JValue) (rest : Dict) (k : String) :
    hasKey ((k', v') :: rest) k = ((k' == k) || hasKey rest k) := by
  simp [hasKey, List.any]

@[simp]
theorem dget_dset_same (d : Dict) (k : String) (v : JValue) (dflt : JValue) :
    dget (dset d k v) k dflt = v := by
  induction d with
  | nil => simp [dset, dget, List.find?]
  | cons p rest ih =>
    obtain ⟨k', v'⟩ := p
    by_cases h : k' = k
    · subst h; simp [dset, dget, List.find?]
    · simp only [dset, if_neg h]
      rw [dget_cons]
      simp [h, ih]

@[simp]
theorem dget_dset_ne (d : Dict) (k' k : String) (v : JValue) (dflt : JValue)
    (h : k' ≠ k) : dget (dset d k' v) k dflt = dget d k dflt := by
  induction d with
  | nil =>
    have hbe : (k' == k) = false := by simp [h]
    simp [dset, dget, List.find?, hbe]
  | cons p rest ih =>
    obtain ⟨a, b⟩ := p
    by_cases ha : a = k'
    · rw [dset_cons, if_pos ha, dget_cons, dget_cons]
      have hbe : (k' == k) = false := by simp [h]
      subst ha
      simp [hbe]
    · rw [dset_cons, if_neg ha, dget_cons, dget_cons]
      by_cases hak : (a == k) = true <;> simp [hak, ih]

@[simp]
theorem hasKey_dset (d : Dict) (k' k : String) (v : JValue) :
    hasKey (dset d k' v) k = (hasKey d k || (k' == k)) := by
  induction d with
  | nil => simp [dset, hasKey]
  | cons p rest ih =>
    obtain ⟨a, b⟩ := p
    by_cases ha : a = k'
    · subst ha
      simp only [dset, if_pos rfl, hasKey_cons]
      by_cases hak : (a == k) = true <;> simp [hak]
    · simp only [dset, if_neg ha, hasKey_cons, ih]
      by_cases hak : (a == k) = true <;> simp [hak, Bool.or_assoc]

theorem dset_dget_same (d : Dict) (k : String) (dflt : JValue)
    (h : hasKey d k = true) : dset d k (dget d k dflt) = d := by
  induction d with
  | nil => simp [hasKey] at h
  | cons p rest ih =>
    obtain ⟨a, b⟩ := p
    by_cases ha : a = k
    · subst ha
      rw [dget_cons]
      simp [dset]
    · have hak : (a == k) = false := by simp [ha]
      rw [dget_cons]
      simp only [hasKey_cons, hak, Bool.false_or] at h
      simp [dset, ha, hak, ih h]

@[simp]
theorem toList_ofList (d : Dict) : (JObj.ofList d).toList = d := by
  induction d with
  | nil => rfl
  | cons p rest ih => obtain ⟨k, v⟩ := p; simp [JObj.ofList, JObj.toList, ih]

/-! Loop characterizations: both validator loops are order-preserving
selections over the input. -/

theorem validateAssetsFrom_eq (xs : List JValue) (acc : List Dict) :
    validateAssetsFrom xs acc = acc ++ xs.filterMap validateAsset := by
  induction xs generalizing acc with
  | nil => simp [validateAssetsFrom]
  | cons a rest ih =>
    simp only [validateAssetsFrom]
    cases h : validateAsset a with
    | none => simp [h, ih]
    | some r => simp [h, ih]

theorem validated_assets_eq (xs : List JValue) :
    validated_assets xs = xs.filterMap validateAsset := by
  simp [validated_assets, validateAssetsFrom_eq]

theorem validateTradesFrom_eq (xs : List JValue) (acc : List Dict) :
    validateTradesFrom xs acc = acc ++ xs.filterMap tradeKeep ∨
      validateTradesFrom xs acc = [] := by
  induction xs generalizing acc with
  | nil => left; simp [validateTradesFrom]
  | cons t rest ih =>
    simp only [validateTradesFrom]
    cases h : validateTrade t with
    | drop =>
      rcases ih acc with h2 | h2
      · left
        show validateTradesFrom rest acc = acc ++ List.filterMap tradeKeep (t :: rest)
        rw [h2]; simp [tradeKeep, h]
      · right
        show validateTradesFrom rest acc = []
        exact h2
    | keep d =>
      rcases ih (acc ++ [d]) with h2 | h2
      · left
        show validateTradesFrom rest (acc ++ [d]) = acc ++ List.filterMap tradeKeep (t :: rest)
        rw [h2]; simp [tradeKeep, h]
      · right
        show validateTradesFrom rest (acc ++ [d]) = []
        exact h2
    | raised => right; rfl

theorem validated_trades_eq (xs : List JValue) :
    validated_trades xs = xs.filterMap tradeKeep ∨ validated_trades xs = [] := by
  have h := validateTradesFrom_eq xs []
  simpa [validated_trades] using h

/-! Explicit forms of the two holding branches, with every lookup pushed
down to the original input record. -/

theorem stock_branch_eq (d : Dict) :
    stock_branch d =
      match pyFloat (dget d "shares" (.num 0)), pyFloat (dget d "purchasePrice" (.num 0)) with
      | some s, some p =>
        if s ≤ 0 ∨ p ≤ 0 then none
        else some (dset (dset (dset (dset (dset (dset (dset d "ticker" (dget d "ticker" (.str ""))) "shares" (dget d "shares" (.num 0))) "purchasePrice" (dget d "purchasePrice" (.num 0))) "balance" (.num 0)) "apy" (.num 0)) "shares" (.num s)) "purchasePrice" (.num p))
      | _, _ => none := by
  simp only [stock_branch]
  simp (disch := decide) only [dget_dset_same, dget_dset_ne]

theorem cash_branch_eq (d : Dict) :
    cash_branch d =
      match pyFloat (dget d "balance" (.num 0)) with
      | none => none
      | some b =>
        if b ≤ 0 then none
        else
          match pyFloat (dget d "apy" (.num 0)) with
          | none => none
          | some a =>
            some (dset (dset (dset (dset (dset (dset (dset d "ticker" (.str "")) "shares" (.num 0)) "purchasePrice" (.num 0)) "balance" (dget d "balance" (.num 0))) "apy" (dget d "apy" (.num 0))) "balance" (.num b)) "apy" (.num (if a < 0 ∨ a > 1 then 0 else a))) := by
  simp only [cash_branch]
  simp (disch := decide) only [dget_dset_same, dget_dset_ne]
  cases pyFloat (dget d "balance" (.num 0)) with
  | none => rfl
  | some b =>
    by_cases hb : b ≤ 0
    · simp [hb]
    · simp only [if_neg hb]
      cases pyFloat (dget d "apy" (.num 0)) with
      | none => rfl
      | some a =>
        by_cases ha : a < 0 ∨ a > 1
        · simp [ha]
        · simp [ha]

@[simp]
theorem ofList_toList (fields : JObj) : JObj.ofList fields.toList = fields := by
  match fields with
  | .nil => rfl
  | .cons k v rest => simp [JObj.ofList, JObj.toList, ofList_toList rest]

theorem dset_eq_self (d : Dict) (k : String) (w : JValue) (dflt : JValue)
    (hk : hasKey d k = true) (h : dget d k dflt = w) : dset d k w = d := by
  rw [← h]; exact dset_dget_same d k dflt hk

/-! Inversion lemmas: structure of a record that survives validation. -/

theorem validateAsset_inv (v : JValue) (r : Dict) (h : validateAsset v = some r) :
    ∃ d : Dict, v = .obj (JObj.ofList d) ∧ hasKey d "name" = true ∧
      hasKey d "isStock" = true ∧
      ((truthy (dget d "isStock" .null) = true ∧ stock_branch d = some r) ∨
        (truthy (dget d "isStock" .null) = false ∧ cash_branch d = some r)) := by
  cases v with
  | obj fields =>
    refine ⟨fields.toList, by simp, ?_⟩
    simp only [validateAsset] at h
    by_cases h1 : (hasKey fields.toList "name" && hasKey fields.toList "isStock") = true
    · simp only [h1, if_pos] at h
      simp only [Bool.and_eq_true] at h1
      refine ⟨h1.1, h1.2, ?_⟩
      by_cases h2 : truthy (dget fields.toList "isStock" .null) = true
      · left; exact ⟨h2, by rwa [if_pos h2] at h⟩
      · right
        rw [Bool.not_eq_true] at h2
        exact ⟨h2, by rwa [if_neg (by simp [h2])] at h⟩
    · rw [if_neg h1] at h; exact absurd h (by simp)
  | null => exact absurd h (by simp [validateAsset])
  | bool b => exact absurd h (by simp [validateAsset])
  | num q => exact absurd h (by simp [validateAsset])
  | str s => exact absurd h (by simp [validateAsset])
  | arr elems => exact absurd h (by simp [validateAsset])

theorem stock_branch_some_inv (d r : Dict) (h : stock_branch d = some r) :
    ∃ s p : ℚ, pyFloat (dget d "shares" (.num 0)) = some s ∧
      pyFloat (dget d "purchasePrice" (.num 0)) = some p ∧ 0 < s ∧ 0 < p ∧
      r = dset (dset (dset (dset (dset (dset (dset d "ticker" (dget d "ticker" (.str ""))) "shares" (dget d "shares" (.num 0))) "purchasePrice" (dget d "purchasePrice" (.num 0))) "balance" (.num 0)) "apy" (.num 0)) "shares" (.num s)) "purchasePrice" (.num p) := by
  rw [stock_branch_eq] at h
  split at h
  · rename_i s p hs hp
    by_cases hle : s ≤ 0 ∨ p ≤ 0
    · rw [if_pos hle] at h; exact absurd h (by simp)
    · rw [if_neg hle] at h
      push_neg at hle
      exact ⟨s, p, hs, hp, hle.1, hle.2, (Option.some_injective _ h).symm⟩
  · exact absurd h (by simp)

theorem cash_branch_some_inv (d r : Dict) (h : cash_branch d = some r) :
    ∃ b a : ℚ, pyFloat (dget d "balance" (.num 0)) = some b ∧
      pyFloat (dget d "apy" (.num 0)) = some a ∧ 0 < b ∧
      r = dset (dset (dset (dset (dset (dset (dset d "ticker" (.str "")) "shares" (.num 0)) "purchasePrice" (.num 0)) "balance" (dget d "balance" (.num 0))) "apy" (dget d "apy" (.num 0))) "balance" (.num b)) "apy" (.num (if a < 0 ∨ a > 1 then 0 else a)) := by
  rw [cash_branch_eq] at h
  split at h
  · exact absurd h (by simp)
  · rename_i b hb
    by_cases hle : b ≤ 0
    · rw [if_pos hle] at h; exact absurd h (by simp)
    · rw [if_neg hle] at h
      split at h
      · exact absurd h (by simp)
      · rename_i a ha
        exact ⟨b, a, hb, ha, lt_of_not_le hle, (Option.some_injective _ h).symm⟩

theorem dget_of_hasKey_eq_false (d : Dict) (k : String) (dflt : JValue)
    (h : hasKey d k = false) : dget d k dflt = dflt := by
  induction d with
  | nil => rfl
  | cons p rest ih =>
    obtain ⟨a, b⟩ := p
    simp only [hasKey_cons, Bool.or_eq_false_iff] at h
    rw [dget_cons]
    simp [h.1, ih h.2]

theorem dget_default_irrel (d : Dict) (k : String) (d1 d2 : JValue)
    (h : hasKey d k = true) : dget d k d1 = dget d k d2 := by
  induction d with
  | nil => simp [hasKey] at h
  | cons p rest ih =>
    obtain ⟨a, b⟩ := p
    rw [dget_cons, dget_cons]
    by_cases hak : (a == k) = true
    · simp [hak]
    · simp only [hasKey_cons, Bool.or_eq_true] at h
      rcases h with h | h
      · exact absurd h hak
      · simp [hak, ih h]

/-- Every record the holding validator emits is a fixed point of the
per-record validation body. -/
theorem validateAsset_fixed (v : JValue) (r : Dict) (h : validateAsset v = some r) :
    validateAsset (mkObj r) = some r := by
  obtain ⟨d, hv, hname, hisStock, hbr⟩ := validateAsset_inv v r h
  rcases hbr with ⟨htr, hsb⟩ | ⟨htr, hcb⟩
  · obtain ⟨s, p, hs, hp, hs0, hp0, hr⟩ := stock_branch_some_inv d r hsb
    have hKname : hasKey r "name" = true := by rw [hr]; simp (disch := decide) [hname]
    have hKisStock : hasKey r "isStock" = true := by rw [hr]; simp (disch := decide) [hisStock]
    have hKt : hasKey r "ticker" = true := by rw [hr]; simp (disch := decide)
    have hKs : hasKey r "shares" = true := by rw [hr]; simp (disch := decide)
    have hKp : hasKey r "purchasePrice" = true := by rw [hr]; simp (disch := decide)
    have hDisStock : dget r "isStock" .null = dget d "isStock" .null := by
      rw [hr]; simp (disch := decide)
    have hDt : dget r "ticker" (.str "") = dget d "ticker" (.str "") := by
      rw [hr]; simp (disch := decide)
    have hDs : dget r "shares" (.num 0) = .num s := by rw [hr]; simp (disch := decide)
    have hDp : dget r "purchasePrice" (.num 0) = .num p := by rw [hr]; simp (disch := decide)
    have e1 : dset r "ticker" (dget d "ticker" (.str "")) = r :=
      dset_eq_self r _ _ .null hKt (by rw [hr]; simp (disch := decide))
    have e2 : dset r "shares" (.num s) = r :=
      dset_eq_self r _ _ .null hKs (by rw [hr]; simp (disch := decide))
    have e3 : dset r "purchasePrice" (.num p) = r :=
      dset_eq_self r _ _ .null hKp (by rw [hr]; simp (disch := decide))
    have e4 : dset r "balance" (.num 0) = r :=
      dset_eq_self r _ _ .null (by rw [hr]; simp (disch := decide))
        (by rw [hr]; simp (disch := decide))
    have e5 : dset r "apy" (.num 0) = r :=
      dset_eq_self r _ _ .null (by rw [hr]; simp (disch := decide))
        (by rw [hr]; simp (disch := decide))
    simp only [mkObj, validateAsset, toList_ofList, hKname, hKisStock, Bool.and_self, if_true,
      hDisStock, htr]
    rw [stock_branch_eq, hDs, hDp]
    simp only [pyFloat]
    have hcond : ¬(s ≤ 0 ∨ p ≤ 0) := by push_neg; exact ⟨hs0, hp0⟩
    rw [if_neg hcond, hDt]
    simp only [e1, e2, e3, e4, e5]
  · obtain ⟨b, a, hb, ha, hb0, hr⟩ := cash_branch_some_inv d r hcb
    have hKname : hasKey r "name" = true := by rw [hr]; simp (disch := decide) [hname]
    have hKisStock : hasKey r "isStock" = true := by rw [hr]; simp (disch := decide) [hisStock]
    have hKt : hasKey r "ticker" = true := by rw [hr]; simp (disch := decide)
    have hKb : hasKey r "balance" = true := by rw [hr]; simp (disch := decide)
    have hKa : hasKey r "apy" = true := by rw [hr]; simp (disch := decide)
    have hDisStock : dget r "isStock" .null = dget d "isStock" .null := by
      rw [hr]; simp (disch := decide)
    have hDb : dget r "balance" (.num 0) = .num b := by rw [hr]; simp (disch := decide)
    have hDa : dget r "apy" (.num 0) = .num (if a < 0 ∨ a > 1 then 0 else a) := by
      rw [hr]; simp (disch := decide)
    have e1 : dset r "ticker" (.str "") = r :=
      dset_eq_self r _ _ .null hKt (by rw [hr]; simp (disch := decide))
    have e2 : dset r "shares" (.num 0) = r :=
      dset_eq_self r _ _ .null (by rw [hr]; simp (disch := decide))
        (by rw [hr]; simp (disch := decide))
    have e3 : dset r "purchasePrice" (.num 0) = r :=
      dset_eq_self r _ _ .null (by rw [hr]; simp (disch := decide))
        (by rw [hr]; simp (disch := decide))
    have e4 : dset r "balance" (.num b) = r :=
      dset_eq_self r _ _ .null hKb (by rw [hr]; simp (disch := decide))
    have e5 : dset r "apy" (.num (if a < 0 ∨ a > 1 then 0 else a)) = r :=
      dset_eq_self r _ _ .null hKa (by rw [hr]; simp (disch := decide))
    have haOut : ¬((if a < 0 ∨ a > 1 then (0 : ℚ) else a) < 0 ∨
        (if a < 0 ∨ a > 1 then (0 : ℚ) else a) > 1) := by
      by_cases hc : a < 0 ∨ a > 1
      · rw [if_pos hc]; push_neg; norm_num
      · rw [if_neg hc]; exact hc
    simp only [mkObj, validateAsset, toList_ofList, hKname, hKisStock, Bool.and_self, if_true,
      hDisStock, htr, Bool.false_eq_true, if_false]
    rw [cash_branch_eq, hDb]
    simp only [pyFloat]
    rw [if_neg (not_le.mpr hb0), hDa]
    simp only [pyFloat]
    rw [if_neg haOut]
    simp only [e1, e2, e3, e4, e5]

/-! Claim theorems. -/

/-- C1, counterexample: on the spec's worked example taken verbatim (the
stock records carry their price under the key currentPrice), the holding
validator returns only the normalized Cash record -- the code reads the
key purchasePrice, so the Apple record's price defaults to 0 and the
record is dropped -- and in particular not the two-record output the
example claims. -/
theorem C1_example_counterexample :
    validated_assets [specCashIn, specBadCoIn, specAppleIn] = [amendCashOut] ∧
    validated_assets [specCashIn, specBadCoIn, specAppleIn] ≠
      [specCashOutClaim, specAppleOutClaim] := by
  decide

/-- C1, amended: with the two stock records carrying their price under the
key purchasePrice (the field the code reads), the holding validator
returns exactly the normalized Cash record followed by the normalized
Apple record, and drops the negative-share BadCo record. -/
theorem C1_example_amended :
    validated_assets [specCashIn, amendBadCoIn, amendAppleIn] = [amendCashOut, amendAppleOut] := by
  decide

/-- C6: both validators return order-preserving selections of their input:
the holding validator is exactly a filterMap of its per-record body, the
trade validator a prefix-abandoning sublist of one, and neither output is
ever longer than the input. -/
theorem C6_order_preservation (xs : List JValue) :
    validated_assets xs = xs.filterMap validateAsset ∧
    (validated_assets xs).length ≤ xs.length ∧
    List.Sublist (validated_trades xs) (xs.filterMap tradeKeep) ∧
    (validated_trades xs).length ≤ xs.length := by
  refine ⟨validated_assets_eq xs, ?_, ?_, ?_⟩
  · rw [validated_assets_eq]
    exact List.length_filterMap_le _ _
  · rcases validated_trades_eq xs with h | h
    · rw [h]
    · rw [h]; exact List.nil_sublist _
  · rcases validated_trades_eq xs with h | h
    · rw [h]; exact List.length_filterMap_le _ _
    · simp [h]

/-- Helper: a filterMap over a list on which the function acts as some of
the identity returns the list unchanged. -/
theorem filterMap_id_of_mem {α : Type} (l : List α) (g : α → Option α)
    (H : ∀ r ∈ l, g r = some r) : l.filterMap g = l := by
  induction l with
  | nil => rfl
  | cons a rest ih =>
    rw [List.filterMap_cons, H a (by simp)]
    rw [ih (fun r hr => H r (by simp [hr]))]

/-- C7: the holding validator is idempotent -- feeding its output (read
back as decoded objects) through validation again returns the same
sequence unchanged. -/
theorem C7_idempotence (xs : List JValue) :
    validated_assets ((validated_assets xs).map mkObj) = validated_assets xs := by
  rw [validated_assets_eq ((validated_assets xs).map mkObj), List.filterMap_map]
  apply filterMap_id_of_mem
  intro r hr
  rw [validated_assets_eq] at hr
  obtain ⟨v, _, hsome⟩ := List.mem_filterMap.mp hr
  exact validateAsset_fixed v r hsome

/-- C5, counterexample: a cash record with name and isStock present,
isStock false and balance 100 > 0 is nevertheless dropped by the holding
validator when its apy fails numeric coercion, contradicting the claim
that every such record is present in the output. -/
theorem C5_balance_counterexample :
    hasKey savingsOopsD "name" = true ∧ hasKey savingsOopsD "isStock" = true ∧
    truthy (dget savingsOopsD "isStock" .null) = false ∧
    dget savingsOopsD "balance" .null = .num 100 ∧ (0 : ℚ) < 100 ∧
    validated_assets [savingsOopsIn] = [] := by
  decide

/-- C5, amended: a holding record with name and isStock present, isStock
falsy, whose balance coerces to a positive number AND whose apy (default
0) coerces to a number, survives validation and is normalized with
ticker empty, shares 0 and purchasePrice 0; it appears in the validator
output of every input sequence containing the record. -/
theorem C5_cash_retained_amended (fields : JObj)
    (hname : hasKey fields.toList "name" = true)
    (hisStock : hasKey fields.toList "isStock" = true)
    (htr : truthy (dget fields.toList "isStock" .null) = false)
    (b : ℚ) (hb : pyFloat (dget fields.toList "balance" (.num 0)) = some b) (hb0 : 0 < b)
    (a : ℚ) (ha : pyFloat (dget fields.toList "apy" (.num 0)) = some a) :
    ∃ r, validateAsset (.obj fields) = some r ∧
      (∀ xs : List JValue, JValue.obj fields ∈ xs → r ∈ validated_assets xs) ∧
      dget r "ticker" .null = .str "" ∧ dget r "shares" .null = .num 0 ∧
      dget r "purchasePrice" .null = .num 0 := by
  have hV : validateAsset (.obj fields) = cash_branch fields.toList := by
    simp [validateAsset, hname, hisStock, htr]
  have hsome : ∃ r, validateAsset (.obj fields) = some r := by
    rw [hV]
    simp only [cash_branch_eq, hb]
    rw [if_neg (not_le.mpr hb0)]
    simp only [ha]
    exact ⟨_, rfl⟩
  obtain ⟨r, hr⟩ := hsome
  obtain ⟨b2, a2, hb2, ha2, hb02, hrEq⟩ := cash_branch_some_inv _ _ (hV ▸ hr)
  refine ⟨r, hr, ?_, ?_, ?_, ?_⟩
  · intro xs hxs
    rw [validated_assets_eq]
    exact List.mem_filterMap.mpr ⟨.obj fields, hxs, hr⟩
  · rw [hrEq]; simp (disch := decide)
  · rw [hrEq]; simp (disch := decide)
  · rw [hrEq]; simp (disch := decide)

/-- C5 witness: the spec example's Cash record satisfies the amended
claim's hypotheses and is retained, normalized, by the validator. -/
theorem C5_cash_retained_witness :
    (hasKey specCashD "name" = true ∧ hasKey specCashD "isStock" = true ∧
      truthy (dget specCashD "isStock" .null) = false ∧
      pyFloat (dget specCashD "balance" (.num 0)) = some 5000 ∧ (0 : ℚ) < 5000 ∧
      pyFloat (dget specCashD "apy" (.num 0)) = some (Rat.divInt 45 1000)) ∧
    ∃ r, validateAsset (.obj (JObj.ofList specCashD)) = some r ∧
      (∀ xs : List JValue, JValue.obj (JObj.ofList specCashD) ∈ xs → r ∈ validated_assets xs) ∧
      dget r "ticker" .null = .str "" ∧ dget r "shares" .null = .num 0 ∧
      dget r "purchasePrice" .null = .num 0 :=
  ⟨⟨by decide, by decide, by decide, by decide, by decide, by decide⟩,
    C5_cash_retained_amended (JObj.ofList specCashD) (by decide) (by decide) (by decide)
      5000 (by decide) (by decide) (Rat.divInt 45 1000) (by decide)⟩

/-- C9: with name and isStock present, the holding validator dispatches on
the Python truthiness of the isStock value (so the number 1 or the
non-empty string "false" select the stock branch, 0 or the empty string or
null the cash branch), and the isStock value itself is carried into the
output unmodified. -/
theorem C9_truthiness_dispatch (fields : JObj)
    (hname : hasKey fields.toList "name" = true)
    (hisStock : hasKey fields.toList "isStock" = true) :
    (truthy (dget fields.toList "isStock" .null) = true →
      validateAsset (.obj fields) = stock_branch fields.toList) ∧
    (truthy (dget fields.toList "isStock" .null) = false →
      validateAsset (.obj fields) = cash_branch fields.toList) ∧
    ∀ r, validateAsset (.obj fields) = some r →
      dget r "isStock" .null = dget fields.toList "isStock" .null := by
  refine ⟨fun htr => by simp [validateAsset, hname, hisStock, htr],
    fun htr => by simp [validateAsset, hname, hisStock, htr], ?_⟩
  intro r h
  obtain ⟨d, hveq, _, _, hbr⟩ := validateAsset_inv (.obj fields) r h
  have hd : fields.toList = d := by
    injection hveq with h2
    rw [h2, toList_ofList]
  rcases hbr with ⟨htr, hsb⟩ | ⟨htr, hcb⟩
  · obtain ⟨s, p, _, _, _, _, hr⟩ := stock_branch_some_inv d r hsb
    subst hr
    rw [hd]
    simp (disch := decide)
  · obtain ⟨b, a, _, _, _, hr⟩ := cash_branch_some_inv d r hcb
    subst hr
    rw [hd]
    simp (disch := decide)

/-- C9 witness: the record whose isStock is the non-empty string "false"
is routed to the stock branch. -/
theorem C9_truthiness_witness :
    (hasKey strFalseStockD "name" = true ∧ hasKey strFalseStockD "isStock" = true ∧
      truthy (dget strFalseStockD "isStock" .null) = true) ∧
    validateAsset (.obj (JObj.ofList strFalseStockD)) = stock_branch strFalseStockD := by
  refine ⟨⟨by decide, by decide, by decide⟩, ?_⟩
  exact (C9_truthiness_dispatch (JObj.ofList strFalseStockD) (by decide) (by decide)).1 (by decide)

/-- C10: a stock-like holding whose ticker key is absent or maps to the
empty string is still retained (with ticker normalized to the empty
string) provided its shares and purchasePrice coerce to positive
numbers. -/
theorem C10_missing_ticker_kept (fields : JObj)
    (hname : hasKey fields.toList "name" = true)
    (hisStock : hasKey fields.toList "isStock" = true)
    (htr : truthy (dget fields.toList "isStock" .null) = true)
    (ht : hasKey fields.toList "ticker" = false ∨ dget fields.toList "ticker" .null = .str "")
    (s p : ℚ)
    (hs : pyFloat (dget fields.toList "shares" (.num 0)) = some s)
    (hp : pyFloat (dget fields.toList "purchasePrice" (.num 0)) = some p)
    (hs0 : 0 < s) (hp0 : 0 < p) :
    ∃ r, validateAsset (.obj fields) = some r ∧ dget r "ticker" .null = .str "" := by
  have htv : dget fields.toList "ticker" (.str "") = .str "" := by
    rcases ht with h | h
    · exact dget_of_hasKey_eq_false _ _ _ h
    · by_cases hk : hasKey fields.toList "ticker" = true
      · rw [dget_default_irrel _ _ _ .null hk, h]
      · exact dget_of_hasKey_eq_false _ _ _ (by simpa using hk)
  have hV : validateAsset (.obj fields) = stock_branch fields.toList := by
    simp [validateAsset, hname, hisStock, htr]
  rw [hV]
  simp only [stock_branch_eq, hs, hp]
  rw [if_neg (by push_neg; exact ⟨hs0, hp0⟩)]
  refine ⟨_, rfl, ?_⟩
  rw [htv]
  simp (disch := decide)

/-- C10 witness: the concrete ticker-less stock holding is retained with
an empty ticker. -/
theorem C10_missing_ticker_witness :
    (hasKey noTickerStockD "name" = true ∧ hasKey noTickerStockD "isStock" = true ∧
      truthy (dget noTickerStockD "isStock" .null) = true ∧
      hasKey noTickerStockD "ticker" = false ∧
      pyFloat (dget noTickerStockD "shares" (.num 0)) = some 2 ∧
      pyFloat (dget noTickerStockD "purchasePrice" (.num 0)) = some 3 ∧
      (0 : ℚ) < 2 ∧ (0 : ℚ) < 3) ∧
    ∃ r, validateAsset (.obj (JObj.ofList noTickerStockD)) = some r ∧
      dget r "ticker" .null = .str "" :=
  ⟨⟨by decide, by decide, by decide, by decide, by decide, by decide, by decide, by decide⟩,
    C10_missing_ticker_kept (JObj.ofList noTickerStockD) (by decide) (by decide) (by decide)
      (Or.inl (by decide)) 2 3 (by decide) (by decide) (by decide) (by decide)⟩

/-- C4: on a cash-like record with a positive coerced balance, a failing
apy coercion rejects the whole record, while a successful coercion retains
it with the apy clamped to 0 when outside the unit interval and kept
unchanged when inside. -/
theorem C4_apy_clamping (fields : JObj)
    (hname : hasKey fields.toList "name" = true)
    (hisStock : hasKey fields.toList "isStock" = true)
    (htr : truthy (dget fields.toList "isStock" .null) = false)
    (b : ℚ) (hb : pyFloat (dget fields.toList "balance" (.num 0)) = some b)
    (hb0 : 0 < b) :
    match pyFloat (dget fields.toList "apy" (.num 0)) with
    | none => validateAsset (.obj fields) = none
    | some a => ∃ r, validateAsset (.obj fields) = some r ∧
        dget r "apy" .null = .num (if a < 0 ∨ a > 1 then 0 else a) := by
  have hV : validateAsset (.obj fields) = cash_branch fields.toList := by
    simp [validateAsset, hname, hisStock, htr]
  cases ha : pyFloat (dget fields.toList "apy" (.num 0)) with
  | none =>
    show validateAsset (.obj fields) = none
    rw [hV]
    simp only [cash_branch_eq, hb]
    rw [if_neg (not_le.mpr hb0)]
    simp only [ha]
  | some a =>
    show ∃ r, validateAsset (.obj fields) = some r ∧
      dget r "apy" .null = .num (if a < 0 ∨ a > 1 then 0 else a)
    rw [hV]
    simp only [cash_branch_eq, hb]
    rw [if_neg (not_le.mpr hb0)]
    simp only [ha]
    refine ⟨_, rfl, ?_⟩
    simp (disch := decide)

/-- C4 witness: the cash record with apy 5 satisfies the hypotheses and is
retained with its apy clamped to 0. -/
theorem C4_apy_clamping_witness :
    (truthy (dget hyCashD "isStock" .null) = false ∧
      pyFloat (dget hyCashD "balance" (.num 0)) = some 100 ∧ (0 : ℚ) < 100) ∧
    ∃ r, validateAsset (.obj (JObj.ofList hyCashD)) = some r ∧
      dget r "apy" .null = .num (if (5 : ℚ) < 0 ∨ (5 : ℚ) > 1 then 0 else 5) := by
  refine ⟨⟨by decide, by decide, by decide⟩, ?_⟩
  exact C4_apy_clamping (JObj.ofList hyCashD) (by decide) (by decide) (by decide)
    100 (by decide) (by decide)

/-- Helper: inversion of a kept trade record -- the input was a mapping
with all four required keys, a string ticker and coercible numeric fields,
and the output is the input with the numbers stored back and the ticker
uppercased. -/
theorem validateTrade_keep_inv (v : JValue) (r : Dict) (h : validateTrade v = .keep r) :
    ∃ fields : JObj, v = .obj fields ∧
      (hasKey fields.toList "date" && hasKey fields.toList "ticker" &&
        hasKey fields.toList "realized_pnl" && hasKey fields.toList "percent_diff") = true ∧
      ∃ pnl pd : ℚ, ∃ s : String,
        pyFloat (dget fields.toList "realized_pnl" .null) = some pnl ∧
        pyFloat (dget fields.toList "percent_diff" .null) = some pd ∧
        dget fields.toList "ticker" .null = .str s ∧
        r = dset (dset (dset fields.toList "realized_pnl" (.num pnl)) "percent_diff" (.num pd)) "ticker" (.str (pyUpper s)) := by
  cases v with
  | obj fields =>
    refine ⟨fields, rfl, ?_⟩
    simp only [validateTrade] at h
    by_cases h1 : (hasKey fields.toList "date" && hasKey fields.toList "ticker" &&
        hasKey fields.toList "realized_pnl" && hasKey fields.toList "percent_diff") = true
    · rw [if_pos h1] at h
      refine ⟨h1, ?_⟩
      split at h
      · rename_i pnl pd hpnl hpd
        split at h
        · rename_i s hticker
          refine ⟨pnl, pd, s, hpnl, hpd, ?_, ?_⟩
          · rwa [dget_dset_ne _ _ _ _ _ (by decide), dget_dset_ne _ _ _ _ _ (by decide)] at hticker
          · injection h with h2
            exact h2.symm
        · exact absurd h (by simp)
      · exact absurd h (by simp)
    · rw [if_neg h1] at h
      exact absurd h (by simp)
  | null => exact absurd h (by simp [validateTrade])
  | bool b => exact absurd h (by simp [validateTrade])
  | num q => exact absurd h (by simp [validateTrade])
  | str s => exact absurd h (by simp [validateTrade])
  | arr elems => exact absurd h (by simp [validateTrade])

/-- C3, counterexample: a fully valid trade record survives on its own,
but adding a second record whose ticker is a number (all four keys
present, numerics coercible) makes the whole batch come back empty -- the
AttributeError from calling .upper() on a non-string is caught only by the
outer handler, so one bad record removes every other record of the batch
from the output. -/
theorem C3_batch_counterexample :
    validated_trades [goodTradeIn] = [goodTradeOut] ∧
    validated_trades [goodTradeIn, numTickerTradeIn] = [] := by
  decide

/-- C8, counterexample: a trade record that is a mapping with all four
required fields and coercible numeric fields nevertheless does not
survive validation when its ticker is not a string -- refuting the
claimed if-and-only-if survival condition. -/
theorem C8_trade_counterexample :
    (hasKey numTickerTradeD "date" && hasKey numTickerTradeD "ticker" &&
      hasKey numTickerTradeD "realized_pnl" && hasKey numTickerTradeD "percent_diff") = true ∧
    pyFloat (dget numTickerTradeD "realized_pnl" .null) = some 1 ∧
    pyFloat (dget numTickerTradeD "percent_diff" .null) = some 1 ∧
    tradeKeep numTickerTradeIn = none ∧
    validated_trades [numTickerTradeIn] = [] := by
  decide

/-- C8, amended: a candidate trade record survives validation if and only
if it is a mapping with the four fields date, ticker, realized_pnl and
percent_diff present, a STRING ticker, and numerically coercible
realized_pnl and percent_diff; a surviving record keeps its date
unchanged, has its ticker uppercased and its two numeric fields replaced
by the coerced numbers. -/
theorem C8_trade_record_amended (v : JValue) :
    ((tradeKeep v).isSome = true ↔
      ∃ fields : JObj, v = .obj fields ∧
        (hasKey fields.toList "date" && hasKey fields.toList "ticker" &&
          hasKey fields.toList "realized_pnl" && hasKey fields.toList "percent_diff") = true ∧
        (∃ s, dget fields.toList "ticker" .null = .str s) ∧
        (∃ q, pyFloat (dget fields.toList "realized_pnl" .null) = some q) ∧
        (∃ q, pyFloat (dget fields.toList "percent_diff" .null) = some q)) ∧
    ∀ fields : JObj, ∀ r : Dict, v = .obj fields → tradeKeep v = some r →
      (∀ s, dget fields.toList "ticker" .null = .str s →
        dget r "ticker" .null = .str (pyUpper s)) ∧
      (∀ q, pyFloat (dget fields.toList "realized_pnl" .null) = some q →
        dget r "realized_pnl" .null = .num q) ∧
      (∀ q, pyFloat (dget fields.toList "percent_diff" .null) = some q →
        dget r "percent_diff" .null = .num q) ∧
      dget r "date" .null = dget fields.toList "date" .null := by
  constructor
  · constructor
    · intro hsome
      obtain ⟨r, hr⟩ := Option.isSome_iff_exists.mp hsome
      have hkeep : validateTrade v = .keep r := by
        unfold tradeKeep at hr
        cases hvt : validateTrade v <;> rw [hvt] at hr <;> simp at hr
        exact congrArg TradeOutcome.keep hr
      obtain ⟨fields, hv, hcond, pnl, pd, s, hpnl, hpd, hticker, _⟩ :=
        validateTrade_keep_inv v r hkeep
      exact ⟨fields, hv, hcond, ⟨s, hticker⟩, ⟨pnl, hpnl⟩, ⟨pd, hpd⟩⟩
    · rintro ⟨fields, hv, hcond, ⟨s, hticker⟩, ⟨pnl, hpnl⟩, ⟨pd, hpd⟩⟩
      subst hv
      unfold tradeKeep
      simp only [validateTrade, if_pos hcond, hpnl, hpd]
      have hticker2 : dget (dset (dset fields.toList "realized_pnl" (.num pnl))
          "percent_diff" (.num pd)) "ticker" .null = .str s := by
        rw [dget_dset_ne _ _ _ _ _ (by decide), dget_dset_ne _ _ _ _ _ (by decide)]
        exact hticker
      simp [hticker2]
  · intro fields r hv hr
    have hkeep : validateTrade v = .keep r := by
      unfold tradeKeep at hr
      cases hvt : validateTrade v <;> rw [hvt] at hr <;> simp at hr
      exact congrArg TradeOutcome.keep hr
    obtain ⟨fields2, hv2, hcond, pnl, pd, s, hpnl, hpd, hticker, hrEq⟩ :=
      validateTrade_keep_inv v r hkeep
    have hf : fields = fields2 := by
      rw [hv] at hv2
      injection hv2
    subst hf
    subst hrEq
    refine ⟨?_, ?_, ?_, ?_⟩
    · intro s2 hs2
      rw [hticker] at hs2
      injection hs2 with hss
      rw [← hss]
      simp (disch := decide)
    · intro q hq
      rw [hpnl] at hq
      injection hq with hqq
      rw [← hqq]
      simp (disch := decide)
    · intro q hq
      rw [hpd] at hq
      injection hq with hqq
      rw [← hqq]
      simp (disch := decide)
    · simp (disch := decide)

/-! Lemmas for the extended model: the dictionary operations satisfy the
same laws, both validator loops are a single raise-or-filterMap
characterization, and a kept record inverts to an explicit normalized
form. -/

theorem pget_cons (k' : String) (v' : PyValue) (rest : PyDict) (k : String) (dflt : PyValue) :
    pget ((k', v') :: rest) k dflt = if (k' == k) = true then v' else pget rest k dflt := by
  by_cases h : (k' == k) = true <;> simp [pget, List.find?, h]

theorem pset_cons (a : String) (b : PyValue) (rest : PyDict) (k : String) (v : PyValue) :
    pset ((a, b) :: rest) k v = if a = k then (k, v) :: rest else (a, b) :: pset rest k v := rfl

@[simp]
theorem pHasKey_cons (k' : String) (v' : PyValue) (rest : PyDict) (k : String) :
    pHasKey ((k', v') :: rest) k = ((k' == k) || pHasKey rest k) := by
  simp [pHasKey, List.any]

@[simp]
theorem pget_pset_same (d : PyDict) (k : String) (v : PyValue) (dflt : PyValue) :
    pget (pset d k v) k dflt = v := by
  induction d with
  | nil => simp [pset, pget, List.find?]
  | cons p rest ih =>
    obtain ⟨k', v'⟩ := p
    by_cases h : k' = k
    · subst h; simp [pset, pget, List.find?]
    · simp only [pset, if_neg h]
      rw [pget_cons]
      simp [h, ih]

@[simp]
theorem pget_pset_ne (d : PyDict) (k' k : String) (v : PyValue) (dflt : PyValue)
    (h : k' ≠ k) : pget (pset d k' v) k dflt = pget d k dflt := by
  induction d with
  | nil =>
    have hbe : (k' == k) = false := by simp [h]
    simp [pset, pget, List.find?, hbe]
  | cons p rest ih =>
    obtain ⟨a, b⟩ := p
    by_cases ha : a = k'
    · rw [pset_cons, if_pos ha, pget_cons, pget_cons]
      have hbe : (k' == k) = false := by simp [h]
      subst ha
      simp [hbe]
    · rw [pset_cons, if_neg ha, pget_cons, pget_cons]
      by_cases hak : (a == k) = true <;> simp [hak, ih]

@[simp]
theorem pHasKey_pset (d : PyDict) (k' k : String) (v : PyValue) :
    pHasKey (pset d k' v) k = (pHasKey d k || (k' == k)) := by
  induction d with
  | nil => simp [pset, pHasKey]
  | cons p rest ih =>
    obtain ⟨a, b⟩ := p
    by_cases ha : a = k'
    · subst ha
      simp only [pset, if_pos rfl, pHasKey_cons]
      by_cases hak : (a == k) = true <;> simp [hak]
    · simp only [pset, if_neg ha, pHasKey_cons, ih]
      by_cases hak : (a == k) = true <;> simp [hak, Bool.or_assoc]

@[simp]
theorem pObj_toList_ofList (d : PyDict) : (PyObj.ofList d).toList = d := by
  induction d with
  | nil => rfl
  | cons p rest ih => obtain ⟨k, v⟩ := p; simp [PyObj.ofList, PyObj.toList, ih]

@[simp]
theorem pObj_ofList_toList (fields : PyObj) : PyObj.ofList fields.toList = fields := by
  match fields with
  | .nil => rfl
  | .cons k v rest => simp [PyObj.ofList, PyObj.toList, pObj_ofList_toList rest]

theorem runValidationLoop_eq (f : PyValue → RecordOutcome) (xs : List PyValue) (acc : List PyDict) :
    runValidationLoop f xs acc =
      if (xs.any fun v => f v == .raised) = true then []
      else acc ++ xs.filterMap (fun v => keepOf (f v)) := by
  induction xs generalizing acc with
  | nil => simp [runValidationLoop]
  | cons v rest ih =>
    cases hv : f v with
    | drop =>
      simp only [runValidationLoop, hv]
      rw [ih acc]
      simp [keepOf, hv]
    | keep r =>
      simp only [runValidationLoop, hv]
      rw [ih (acc ++ [r])]
      by_cases hrest : (rest.any fun v => f v == .raised) = true
      · simp [keepOf, hv, hrest]
      · simp [keepOf, hv, hrest]
    | raised =>
      simp only [runValidationLoop, hv]
      simp [hv]

/-- Explicit form of the extended stock branch. -/
theorem stock_branchX_eq (d : PyDict) :
    stock_branchX d =
      match pyFloatX (pget d "shares" (.int 0)) with
      | .overflow => .raised
      | .invalid => .drop
      | .ok shares =>
        match pyFloatX (pget d "purchasePrice" (.int 0)) with
        | .overflow => .raised
        | .invalid => .drop
        | .ok price =>
          if shares.leZero || price.leZero then .drop
          else .keep (pset (pset (pset (pset (pset (pset (pset d "ticker" (pget d "ticker" (.str ""))) "shares" (pget d "shares" (.int 0))) "purchasePrice" (pget d "purchasePrice" (.int 0))) "balance" (.int 0)) "apy" (.int 0)) "shares" (.float shares)) "purchasePrice" (.float price)) := by
  simp only [stock_branchX]
  simp (disch := decide) only [pget_pset_same, pget_pset_ne]

/-- Explicit form of the extended cash branch. -/
theorem cash_branchX_eq (d : PyDict) :
    cash_branchX d =
      match pyFloatX (pget d "balance" (.int 0)) with
      | .overflow => .raised
      | .invalid => .drop
      | .ok balance =>
        if balance.leZero then .drop
        else
          match pyFloatX (pget d "apy" (.int 0)) with
          | .overflow => .raised
          | .invalid => .drop
          | .ok apy =>
            .keep (pset (pset (pset (pset (pset (pset (pset d "ticker" (.str "")) "shares" (.int 0)) "purchasePrice" (.int 0)) "balance" (pget d "balance" (.int 0))) "apy" (pget d "apy" (.int 0))) "balance" (.float balance)) "apy" (if apy.ltZero || apy.gtOne then .int 0 else .float apy)) := by
  simp only [cash_branchX]
  simp (disch := decide) only [pget_pset_same, pget_pset_ne]
  cases pyFloatX (pget d "balance" (.int 0)) with
  | overflow => rfl
  | invalid => rfl
  | ok b =>
    by_cases hb : b.leZero = true
    · simp [hb]
    · simp only [hb, Bool.false_eq_true, if_false]
      cases pyFloatX (pget d "apy" (.int 0)) with
      | overflow => rfl
      | invalid => rfl
      | ok a =>
        by_cases ha : (a.ltZero || a.gtOne) = true
        · simp [ha]
        · simp [ha]

theorem stock_branchX_keep_inv (d r : PyDict) (h : stock_branchX d = .keep r) :
    ∃ s p : PyNum,
      pyFloatX (pget d "shares" (.int 0)) = .ok s ∧
      pyFloatX (pget d "purchasePrice" (.int 0)) = .ok p ∧
      s.leZero = false ∧ p.leZero = false ∧
      r = pset (pset (pset (pset (pset (pset (pset d "ticker" (pget d "ticker" (.str ""))) "shares" (pget d "shares" (.int 0))) "purchasePrice" (pget d "purchasePrice" (.int 0))) "balance" (.int 0)) "apy" (.int 0)) "shares" (.float s)) "purchasePrice" (.float p) := by
  rw [stock_branchX_eq] at h
  split at h
  · exact absurd h (by simp)
  · exact absurd h (by simp)
  · rename_i s hs
    split at h
    · exact absurd h (by simp)
    · exact absurd h (by simp)
    · rename_i p hp
      by_cases hle : (PyNum.leZero s || PyNum.leZero p) = true
      · rw [if_pos hle] at h; exact absurd h (by simp)
      · rw [if_neg hle] at h
        simp only [Bool.or_eq_true, not_or, Bool.not_eq_true] at hle
        injection h with h2
        exact ⟨s, p, hs, hp, hle.1, hle.2, h2.symm⟩

theorem cash_branchX_keep_inv (d r : PyDict) (h : cash_branchX d = .keep r) :
    ∃ b a : PyNum,
      pyFloatX (pget d "balance" (.int 0)) = .ok b ∧ b.leZero = false ∧
      pyFloatX (pget d "apy" (.int 0)) = .ok a ∧
      r = pset (pset (pset (pset (pset (pset (pset d "ticker" (.str "")) "shares" (.int 0)) "purchasePrice" (.int 0)) "balance" (pget d "balance" (.int 0))) "apy" (pget d "apy" (.int 0))) "balance" (.float b)) "apy" (if a.ltZero || a.gtOne then .int 0 else .float a) := by
  rw [cash_branchX_eq] at h
  split at h
  · exact absurd h (by simp)
  · exact absurd h (by simp)
  · rename_i b hb
    by_cases hbz : PyNum.leZero b = true
    · rw [if_pos hbz] at h; exact absurd h (by simp)
    · rw [if_neg hbz] at h
      split at h
      · exact absurd h (by simp)
      · exact absurd h (by simp)
      · rename_i a ha
        injection h with h2
        exact ⟨b, a, hb, Bool.not_eq_true _ |>.mp hbz, ha, h2.symm⟩

theorem validateAssetX_keep_inv (v : PyValue) (r : PyDict) (h : validateAssetX v = .keep r) :
    ∃ d : PyDict, v = .obj (PyObj.ofList d) ∧ pHasKey d "name" = true ∧
      pHasKey d "isStock" = true ∧
      ((truthyX (pget d "isStock" .null) = true ∧ stock_branchX d = .keep r) ∨
        (truthyX (pget d "isStock" .null) = false ∧ cash_branchX d = .keep r)) := by
  cases v with
  | obj fields =>
    refine ⟨fields.toList, by simp, ?_⟩
    simp only [validateAssetX] at h
    by_cases h1 : (pHasKey fields.toList "name" && pHasKey fields.toList "isStock") = true
    · simp only [h1, if_pos] at h
      simp only [Bool.and_eq_true] at h1
      refine ⟨h1.1, h1.2, ?_⟩
      by_cases h2 : truthyX (pget fields.toList "isStock" .null) = true
      · left; exact ⟨h2, by rwa [if_pos h2] at h⟩
      · right
        rw [Bool.not_eq_true] at h2
        exact ⟨h2, by rwa [if_neg (by simp [h2])] at h⟩
    · rw [if_neg h1] at h; exact absurd h (by simp)
  | null => exact absurd h (by simp [validateAssetX])
  | bool b => exact absurd h (by simp [validateAssetX])
  | int n => exact absurd h (by simp [validateAssetX])
  | float x => exact absurd h (by simp [validateAssetX])
  | str s => exact absurd h (by simp [validateAssetX])
  | arr elems => exact absurd h (by simp [validateAssetX])

set_option maxRecDepth 4000

/-- C2, counterexample: json.loads accepts the literal NaN, and every
comparison against NaN is False, so a stock record whose shares decode to
NaN passes the `shares <= 0 or price <= 0` test and is retained in the
holding validator's output with shares = NaN -- a value that is not
greater than 0 -- refuting the claimed invariant `shares > 0`. -/
theorem C2_invariant_counterexample :
    validated_assetsX [nanStockIn] = [nanStockOut] ∧
    truthyX (pget nanStockOut "isStock" .null) = true ∧
    pget nanStockOut "shares" .null = .float .nan ∧
    PyNum.gtZero .nan = false := by
  decide

/-- C2, amended: every record the holding validator outputs carries all
seven fields, and exactly one side is populated, read with Python
comparison semantics: a truthy isStock forces balance = 0 and apy = 0 and
shares and purchasePrice stored as floats for which `value <= 0` is False
(positive, +inf, or NaN); a falsy isStock forces ticker = "", shares = 0,
purchasePrice = 0, a balance float for which `value <= 0` is False, and
an apy that is the clamped 0 or a float for which `value < 0` and
`value > 1` are both False (inside the unit interval, or NaN). -/
theorem C2_invariant_amended (xs : List PyValue) (r : PyDict)
    (h : r ∈ validated_assetsX xs) : holdingInvariantX r := by
  rw [validated_assetsX, runValidationLoop_eq] at h
  by_cases hany : (xs.any fun v => validateAssetX v == .raised) = true
  · rw [if_pos hany] at h
    simp at h
  · rw [if_neg hany] at h
    simp only [List.nil_append] at h
    obtain ⟨v, _, hsome⟩ := List.mem_filterMap.mp h
    have hkeep : validateAssetX v = .keep r := by
      unfold keepOf at hsome
      cases hv : validateAssetX v <;> rw [hv] at hsome <;> simp at hsome
      exact congrArg RecordOutcome.keep hsome
    obtain ⟨d, _, hname, hisStock, hbr⟩ := validateAssetX_keep_inv v r hkeep
    rcases hbr with ⟨htr, hsb⟩ | ⟨htr, hcb⟩
    · obtain ⟨s, p, hs, hp, hsz, hpz, hr⟩ := stock_branchX_keep_inv d r hsb
      subst hr
      unfold holdingInvariantX
      simp (disch := decide) [hname, hisStock, htr, hsz, hpz]
    · obtain ⟨b, a, hb, hbz, ha, hr⟩ := cash_branchX_keep_inv d r hcb
      subst hr
      unfold holdingInvariantX
      by_cases hc : (PyNum.ltZero a || PyNum.gtOne a) = true
      · simp (disch := decide) [hname, hisStock, htr, hbz, hc]
      · simp only [Bool.or_eq_true, not_or, Bool.not_eq_true] at hc
        simp (disch := decide) [hname, hisStock, htr, hbz, hc.1, hc.2]

/-- C2 witness: the NaN-shares record is in the validator output and
satisfies the amended invariant. -/
theorem C2_invariant_amended_witness :
    nanStockOut ∈ validated_assetsX [nanStockIn] ∧ holdingInvariantX nanStockOut :=
  ⟨by decide, C2_invariant_amended [nanStockIn] nanStockOut (by decide)⟩

/-- C3, amended: each validator processes records independently -- its
output is exactly the filterMap of its per-record body -- unless some
record raises an exception no inner handler catches, in which case the
whole batch degrades to the empty sequence; a response that is not a
decoded array also yields the empty sequence.  The uncaught exceptions
are float() overflowing on an integer beyond the double range (either
validator) and .upper() on a non-string ticker (trade validator), each
shown to occur at a concrete record.  In every case the caller receives a
sequence, never a raised error. -/
theorem C3_failure_modes_amended (decoded : Option PyValue) :
    parse_portfolio_imageX decoded =
      (match decoded with
        | some (.arr assets) =>
          if (assets.toList.any fun v => validateAssetX v == .raised) = true then []
          else assets.toList.filterMap (fun v => keepOf (validateAssetX v))
        | _ => []) ∧
    parse_trade_image_with_geminiX decoded =
      (match decoded with
        | some (.arr trades) =>
          if (trades.toList.any fun v => validateTradeX v == .raised) = true then []
          else trades.toList.filterMap (fun v => keepOf (validateTradeX v))
        | _ => []) ∧
    validateAssetX hugeIntStockIn = .raised ∧
    validateTradeX hugeIntTradeIn = .raised ∧
    validateTradeX numTickerTradeXIn = .raised := by
  refine ⟨?_, ?_, by decide, by decide, by decide⟩
  · cases decoded with
    | none => rfl
    | some v =>
      cases v with
      | arr assets =>
        simpa [parse_portfolio_imageX, validated_assetsX] using
          runValidationLoop_eq validateAssetX assets.toList []
      | null => rfl
      | bool b => rfl
      | int n => rfl
      | float x => rfl
      | str s => rfl
      | obj fields => rfl
  · cases decoded with
    | none => rfl
    | some v =>
      cases v with
      | arr trades =>
        simpa [parse_trade_image_with_geminiX, validated_tradesX] using
          runValidationLoop_eq validateTradeX trades.toList []
      | null => rfl
      | bool b => rfl
      | int n => rfl
      | float x => rfl
      | str s => rfl
      | obj fields => rfl

end Aurelo
